import Mathlib

/-!
Verification of the profile connection scan algorithm
(`gtfspy/routing/connection_scan_profile.py`).

Times are modelled as exact rationals (`ℚ`): connection departure/arrival
times and the transfer margin are integers (`ℤ`) cast into `ℚ`, while
footpath propagation divides a walk distance by the walk speed, which is
exact rational arithmetic here just as it is exact float division in the
source.  The "unreachable" sentinel `float("inf")` is modelled by `none`
in `Option ℚ` (so `none` always means `+∞` below).
-/

/-- `timeMin a b` is `min a b` where `none` plays the role of `+∞`:
mirrors Python `min` on floats that may be `float("inf")`. -/
def timeMin : Option ℚ → Option ℚ → Option ℚ
  | none, b => b
  | some a, none => some a
  | some a, some b => some (min a b)

/-- `timeLt a b` is `a < b` where `none` plays the role of `+∞`. -/
def timeLt : Option ℚ → Option ℚ → Bool
  | some _, none => true
  | some a, some b => decide (a < b)
  | none, _ => false

/-- Pointwise function update used to model dictionary writes. -/
def upd {β : Type} (f : ℕ → β) (k : ℕ) (v : β) : ℕ → β :=
  fun x => if x = k then v else f x

/-- Modelled from the spec: `ParetoTuple` from `gtfspy.routing.models`
(not under `src/`): a `(departure_time, arrival_time)` pair; the field
names are the keyword names used at the call sites in the source. -/
structure ParetoTuple where
  departure_time : ℚ
  arrival_time_target : ℚ
deriving DecidableEq, Repr

/-- Modelled from the spec (§3): the dominance relation on Pareto tuples:
`x` dominates `y` iff `x.departure ≥ y.departure` and
`x.arrival ≤ y.arrival`, with at least one strict. -/
def dominates (x y : ParetoTuple) : Bool :=
  (decide (y.departure_time ≤ x.departure_time) &&
   decide (x.arrival_time_target ≤ y.arrival_time_target)) &&
  (decide (y.departure_time < x.departure_time) ||
   decide (x.arrival_time_target < y.arrival_time_target))

/-- Modelled from the spec: `NodeProfile` from `gtfspy.routing.node_profile`
(not under `src/`): a location's Pareto frontier, a collection of
non-dominated tuples. -/
structure NodeProfile where
  tuples : List ParetoTuple
deriving DecidableEq, Repr

/-- Modelled from the spec (§4.1): `query_best_arrival`: the smallest
`arrival_time` among stored tuples whose `departure_time` is at or after
the query time; `none` (unreachable) if there is no such tuple. -/
def NodeProfile.get_earliest_arrival_time_at_target
    (np : NodeProfile) (t : ℚ) : Option ℚ :=
  ((np.tuples.filter (fun tup => decide (t ≤ tup.departure_time))).map
    (fun tup => tup.arrival_time_target)).min?

/-- Modelled from the spec (§4.1): `merge`: insert the candidate iff it is
not dominated by (and not equal to) an existing tuple; on insertion drop
every tuple the candidate dominates; report whether the content changed. -/
def NodeProfile.update_pareto_optimal_tuples
    (np : NodeProfile) (p : ParetoTuple) : NodeProfile × Bool :=
  if np.tuples.any (fun t => dominates t p || t == p) then
    (np, false)
  else
    (⟨p :: np.tuples.filter (fun t => !(dominates p t))⟩, true)

/-- A stop's profile: either an ordinary `NodeProfile` or the target's
`IdentityNodeProfile` sentinel (modelled from the spec §4.1: the sentinel
answers every query with the queried time and ignores merges, reporting
no change). -/
inductive Profile where
  | node (np : NodeProfile)
  | identity
deriving DecidableEq, Repr

/-- Dispatch of `get_earliest_arrival_time_at_target` over the two profile
variants; the identity (target sentinel) answers the query time itself. -/
def Profile.get_earliest_arrival_time_at_target : Profile → ℚ → Option ℚ
  | .node np, t => np.get_earliest_arrival_time_at_target t
  | .identity, t => some t

/-- Dispatch of `update_pareto_optimal_tuples`; the identity sentinel is a
no-op always reporting no change. -/
def Profile.update_pareto_optimal_tuples : Profile → ParetoTuple → Profile × Bool
  | .node np, p =>
    let r := np.update_pareto_optimal_tuples p
    (.node r.1, r.2)
  | .identity, _ => (.identity, false)

/-- Modelled from the spec: `Connection` from `gtfspy.routing.models`
(not under `src/`): one scheduled transit hop; times are signed integers
(seconds), per the spec §3. Stops and trips are identified by naturals. -/
structure Connection where
  departure_stop : ℕ
  arrival_stop : ℕ
  departure_time : ℤ
  arrival_time : ℤ
  trip_id : ℕ
deriving DecidableEq, Repr

/-- Modelled from the spec: the static walk network (a `networkx.Graph`
outside `src/`); `edges s` is the fixed, reproducible list of
`(neighbor, distance_shape)` pairs that `edges_iter(nbunch=[s],
data="distance_shape")` yields for stop `s`. -/
structure WalkNetwork where
  edges : ℕ → List (ℕ × ℚ)

/-- The constructor arguments of `ConnectionScanProfiler` (source
`__init__`): the immutable per-run parameters. -/
structure ConnectionScanProfiler where
  transit_events : List Connection
  target_stop : ℕ
  start_time : ℤ
  end_time : ℤ
  transfer_margin : ℤ
  walk_network : WalkNetwork
  walk_speed : ℚ

/-- The mutable algorithm internals of one sweep: the trip tracker
`__trip_min_arrival_time` (a defaultdict with default `float("inf")`,
here `none`) and the per-stop profile map `_stop_profiles` (a defaultdict
of fresh `NodeProfile`s, with the target pre-set to the identity
sentinel). -/
structure ScanState where
  trip_min_arrival_time : ℕ → Option ℚ
  stop_profiles : ℕ → Profile

/-- The state right after `__init__`: empty tracker, empty profiles, the
target carrying the identity sentinel. -/
def initialState (P : ConnectionScanProfiler) : ScanState where
  trip_min_arrival_time := fun _ => none
  stop_profiles := fun s => if s = P.target_stop then .identity else .node ⟨[]⟩

/-- Source `_scan_footpaths_to_departure_stop`: for each walk edge incident
to the departure stop, merge `(dep_time - distance / walk_speed, arrival)`
into the neighbor's profile (the returned change flag is discarded). -/
def scanFootpathsToDepartureStop (P : ConnectionScanProfiler) (st : ScanState)
    (connection_dep_stop : ℕ) (connection_dep_time arrival_time_target : ℚ) :
    ScanState :=
  (P.walk_network.edges connection_dep_stop).foldl
    (fun st e =>
      let pt : ParetoTuple :=
        ⟨connection_dep_time - e.2 / P.walk_speed, arrival_time_target⟩
      { st with stop_profiles := (upd st.stop_profiles e.1
          ((st.stop_profiles e.1).update_pareto_optimal_tuples pt).1) })
    st

/-- The body of the `for connection in connections` loop of source `_run`
(after the sort-order assertion): query the arrival stop's profile at
`arrival_time + transfer_margin`, read the trip tracker, take the min;
if finite, improve the tracker when it was strictly worse, merge the
candidate tuple into the departure stop's profile, and on change scan the
footpaths to the departure stop. -/
def processConnection (P : ConnectionScanProfiler) (st : ScanState)
    (c : Connection) : ScanState :=
  let earliest_arrival_time :=
    (st.stop_profiles c.arrival_stop).get_earliest_arrival_time_at_target
      ((c.arrival_time + P.transfer_margin : ℤ) : ℚ)
  let trip_arrival_time := st.trip_min_arrival_time c.trip_id
  match timeMin trip_arrival_time earliest_arrival_time with
  | none => st
  | some a =>
    let st1 : ScanState :=
      if timeLt (some a) trip_arrival_time then
        { st with trip_min_arrival_time := (upd st.trip_min_arrival_time
            c.trip_id earliest_arrival_time) }
      else st
    let pareto_tuple : ParetoTuple := ⟨(c.departure_time : ℚ), a⟩
    let r := (st1.stop_profiles c.departure_stop).update_pareto_optimal_tuples
      pareto_tuple
    let st2 : ScanState :=
      { st1 with stop_profiles := upd st1.stop_profiles c.departure_stop r.1 }
    if r.2 then
      scanFootpathsToDepartureStop P st2 c.departure_stop
        (c.departure_time : ℚ) a
    else st2

/-- Source `_run`'s loop with its sort-order assertion:
`latest_dep_time` starts at `float("inf")` (`none`) and each connection
must not depart strictly later than the previous one; a violation aborts
the whole run (`none` result, mirroring the raised `AssertionError`). -/
def scanLoop (P : ConnectionScanProfiler) (st : ScanState)
    (latest_dep_time : Option ℤ) : List Connection → Option ScanState
  | [] => some st
  | c :: rest =>
    match latest_dep_time with
    | none => scanLoop P (processConnection P st c) (some c.departure_time) rest
    | some l =>
      if c.departure_time ≤ l then
        scanLoop P (processConnection P st c) (some c.departure_time) rest
      else
        none

/-- Source `_run`: sweep the whole connection stream from the initial
state. -/
def ConnectionScanProfiler.run (P : ConnectionScanProfiler) :
    Option ScanState :=
  scanLoop P (initialState P) none P.transit_events

/-- The spec's `transfer_arrival` (§4.3 step 1), stated in the spec's own
words: query the frontier at the connection's arrival location for the
best arrival reachable when departing at or after
`arrival_time + transfer_margin`. -/
def spec_transfer_arrival (P : ConnectionScanProfiler) (st : ScanState)
    (c : Connection) : Option ℚ :=
  (st.stop_profiles c.arrival_stop).get_earliest_arrival_time_at_target
    ((c.arrival_time + P.transfer_margin : ℤ) : ℚ)

/-- The spec's `trip_arrival` (§4.3 step 2): the tracker's current best
for the connection's trip, with no margin added. -/
def spec_trip_arrival (st : ScanState) (c : Connection) : Option ℚ :=
  st.trip_min_arrival_time c.trip_id

/-- The spec's `best_arrival` (§4.3 step 3): the minimum of
`transfer_arrival` and `trip_arrival` (with `none` as `+∞`). -/
def spec_best_arrival (P : ConnectionScanProfiler) (st : ScanState)
    (c : Connection) : Option ℚ :=
  timeMin (spec_trip_arrival st c) (spec_transfer_arrival P st c)

/-- The footpath candidates of spec §4.4: for each walk-graph neighbor of
the departure stop, the tuple `(dep - d / walk_speed, arr)` offered to
that neighbor. -/
def footpathCandidates (P : ConnectionScanProfiler) (dep_stop : ℕ)
    (dep_time arr : ℚ) : List (ℕ × ParetoTuple) :=
  (P.walk_network.edges dep_stop).map
    (fun e => (e.1, ⟨dep_time - e.2 / P.walk_speed, arr⟩))

/-- The sequence of `(stop, tuple)` arguments of the
`update_pareto_optimal_tuples` calls issued while processing one
connection, in order: instrumentation of `processConnection`. -/
def mergeTrace (P : ConnectionScanProfiler) (st : ScanState)
    (c : Connection) : List (ℕ × ParetoTuple) :=
  match timeMin (st.trip_min_arrival_time c.trip_id)
      ((st.stop_profiles c.arrival_stop).get_earliest_arrival_time_at_target
        ((c.arrival_time + P.transfer_margin : ℤ) : ℚ)) with
  | none => []
  | some a =>
    let pareto_tuple : ParetoTuple := ⟨(c.departure_time : ℚ), a⟩
    let changed := ((st.stop_profiles
      c.departure_stop).update_pareto_optimal_tuples pareto_tuple).2
    (c.departure_stop, pareto_tuple) ::
      (if changed then
        footpathCandidates P c.departure_stop (c.departure_time : ℚ) a
       else [])

/-- Replay a sequence of merge calls against a profile map. -/
def applyMerges (ps : ℕ → Profile) (ms : List (ℕ × ParetoTuple)) :
    ℕ → Profile :=
  ms.foldl
    (fun ps m => upd ps m.1 ((ps m.1).update_pareto_optimal_tuples m.2).1)
    ps

/-- The merge calls issued by the whole sweep, in order; instrumentation
of `scanLoop` (an aborted run stops logging at the violation). -/
def scanLoopTrace (P : ConnectionScanProfiler) (st : ScanState)
    (latest_dep_time : Option ℤ) : List Connection → List (ℕ × ParetoTuple)
  | [] => []
  | c :: rest =>
    match latest_dep_time with
    | none =>
      mergeTrace P st c ++
        scanLoopTrace P (processConnection P st c) (some c.departure_time) rest
    | some l =>
      if c.departure_time ≤ l then
        mergeTrace P st c ++
          scanLoopTrace P (processConnection P st c) (some c.departure_time)
            rest
      else []

/-- All merge calls issued by `ConnectionScanProfiler.run`. -/
def runMergeTrace (P : ConnectionScanProfiler) : List (ℕ × ParetoTuple) :=
  scanLoopTrace P (initialState P) none P.transit_events

/-- The connections the loop actually processes before the sort-order
assertion aborts it (all of them when the order is respected). -/
def processedConnections (latest_dep_time : Option ℤ) :
    List Connection → List Connection
  | [] => []
  | c :: rest =>
    match latest_dep_time with
    | none => c :: processedConnections (some c.departure_time) rest
    | some l =>
      if c.departure_time ≤ l then
        c :: processedConnections (some c.departure_time) rest
      else []

/-- Modelled from the spec (§5): a sweep instance carries a "has
completed" flag (`_has_run` of `AbstractRoutingAlgorithm`, not under
`src/`), set once the sweep has run to completion. -/
structure ProfilerInstance where
  params : ConnectionScanProfiler
  state : ScanState
  has_run_flag : Bool

/-- A freshly constructed instance: initial state, flag unset. -/
def ConnectionScanProfiler.newInstance (P : ConnectionScanProfiler) :
    ProfilerInstance :=
  ⟨P, initialState P, false⟩

/-- Modelled from the spec (§5): executing the sweep on an instance: fails
if it already ran (a sweep instance executes exactly once), otherwise
performs `_run` and sets the flag; an aborted `_run` yields no instance. -/
def ProfilerInstance.runOnce (inst : ProfilerInstance) :
    Option ProfilerInstance :=
  if inst.has_run_flag then none
  else
    match scanLoop inst.params inst.state none inst.params.transit_events with
    | none => none
    | some st => some ⟨inst.params, st, true⟩

/-- Source `stop_profiles` property: `assert self._has_run` (modelled as a
`none` result when the flag is unset), then the profile map. -/
def ProfilerInstance.stop_profiles (inst : ProfilerInstance) :
    Option (ℕ → Profile) :=
  if inst.has_run_flag then some inst.state.stop_profiles else none

/-- `q` is an exact integer (denominator 1). -/
def IsIntegerTime (q : ℚ) : Prop := q.den = 1

/-- Both components of a Pareto tuple are exact integers. -/
def IntegralTuple (tup : ParetoTuple) : Prop :=
  IsIntegerTime tup.departure_time ∧ IsIntegerTime tup.arrival_time_target

/-- Every tuple stored in every ordinary profile of the map has exact
integer times. -/
def IntegralProfiles (ps : ℕ → Profile) : Prop :=
  ∀ s np, ps s = Profile.node np → ∀ tup ∈ np.tuples, IntegralTuple tup

/-- All times held in a scan state (tracker values and stored tuples) are
exact integers. -/
def IntegralState (st : ScanState) : Prop :=
  (∀ t q, st.trip_min_arrival_time t = some q → IsIntegerTime q) ∧
  IntegralProfiles st.stop_profiles

/-! ### Concrete instances used to witness the theorems -/

/-- An empty walk network. -/
def exNoWalk : WalkNetwork := ⟨fun _ => []⟩

/-- Stop 1 to the target (stop 0), departing 10, arriving 15, trip 1. -/
def exConnBT : Connection := ⟨1, 0, 10, 15, 1⟩

/-- Stop 2 to stop 1, departing 5, arriving 9, trip 2. -/
def exConnAB : Connection := ⟨2, 1, 5, 9, 2⟩

/-- The two-connection scenario of spec §8, margin 0, no walking. -/
def exGoodP : ConnectionScanProfiler :=
  ⟨[exConnBT, exConnAB], 0, 0, 100, 0, exNoWalk, 1⟩

/-- The same connections in increasing departure-time order (invalid). -/
def exBadP : ConnectionScanProfiler :=
  ⟨[exConnAB, exConnBT], 0, 0, 100, 0, exNoWalk, 1⟩

/-- One connection into the target with transfer margin 2. -/
def exMarginP : ConnectionScanProfiler :=
  ⟨[exConnBT], 0, 0, 100, 2, exNoWalk, 1⟩

/-- Two connections with equal departure times (a legal ordering). -/
def exEqP : ConnectionScanProfiler :=
  ⟨[exConnBT, ⟨2, 1, 10, 12, 2⟩], 0, 0, 100, 0, exNoWalk, 1⟩

/-- One connection, a walk edge of distance 1 at every stop, walk speed 2:
footpath departures land on half-integers. -/
def exFootP : ConnectionScanProfiler :=
  ⟨[exConnBT], 0, 0, 100, 0, ⟨fun _ => [(2, 1)]⟩, 2⟩

/-- One connection, a walk edge of distance 4 at every stop, walk speed 2:
footpath departures stay integral. -/
def exFootIntP : ConnectionScanProfiler :=
  ⟨[exConnBT], 0, 0, 100, 0, ⟨fun _ => [(2, 4)]⟩, 2⟩

/-! ### Helper lemmas -/

theorem applyMerges_nil (ps : ℕ → Profile) : applyMerges ps [] = ps := rfl

theorem applyMerges_cons (ps : ℕ → Profile) (m : ℕ × ParetoTuple)
    (ms : List (ℕ × ParetoTuple)) :
    applyMerges ps (m :: ms) =
      applyMerges (upd ps m.1 ((ps m.1).update_pareto_optimal_tuples m.2).1)
        ms := rfl

theorem scanFootpaths_both (P : ConnectionScanProfiler) (st : ScanState)
    (s : ℕ) (d a : ℚ) :
    (scanFootpathsToDepartureStop P st s d a).stop_profiles =
        applyMerges st.stop_profiles (footpathCandidates P s d a) ∧
      (scanFootpathsToDepartureStop P st s d a).trip_min_arrival_time =
        st.trip_min_arrival_time := by
  unfold scanFootpathsToDepartureStop footpathCandidates
  generalize P.walk_network.edges s = l
  induction l generalizing st with
  | nil => exact ⟨rfl, rfl⟩
  | cons e rest ih =>
    simpa [applyMerges_cons] using
      ih { st with stop_profiles := (upd st.stop_profiles e.1
        (((st.stop_profiles e.1).update_pareto_optimal_tuples
          ⟨d - e.2 / P.walk_speed, a⟩).1)) }

theorem scanFootpaths_profiles (P : ConnectionScanProfiler) (st : ScanState)
    (s : ℕ) (d a : ℚ) :
    (scanFootpathsToDepartureStop P st s d a).stop_profiles =
      applyMerges st.stop_profiles (footpathCandidates P s d a) :=
  (scanFootpaths_both P st s d a).1

theorem scanFootpaths_tracker (P : ConnectionScanProfiler) (st : ScanState)
    (s : ℕ) (d a : ℚ) :
    (scanFootpathsToDepartureStop P st s d a).trip_min_arrival_time =
      st.trip_min_arrival_time :=
  (scanFootpaths_both P st s d a).2

theorem processConnection_profiles (P : ConnectionScanProfiler)
    (st : ScanState) (c : Connection) :
    (processConnection P st c).stop_profiles =
      applyMerges st.stop_profiles (mergeTrace P st c) := by
  cases h : timeMin (st.trip_min_arrival_time c.trip_id)
      ((st.stop_profiles c.arrival_stop).get_earliest_arrival_time_at_target
        ((c.arrival_time + P.transfer_margin : ℤ) : ℚ)) with
  | none =>
    simp only [processConnection, mergeTrace]
    rw [h]
    rfl
  | some a =>
    cases hlt : timeLt (some a) (st.trip_min_arrival_time c.trip_id) with
    | false =>
      cases hch : ((st.stop_profiles
          c.departure_stop).update_pareto_optimal_tuples
            ⟨(c.departure_time : ℚ), a⟩).2 with
      | false =>
        simp only [processConnection, mergeTrace]
        rw [h]
        simp [hlt, hch, applyMerges_cons, applyMerges_nil]
      | true =>
        simp only [processConnection, mergeTrace]
        rw [h]
        simp [hlt, hch, applyMerges_cons, scanFootpaths_profiles]
    | true =>
      cases hch : ((st.stop_profiles
          c.departure_stop).update_pareto_optimal_tuples
            ⟨(c.departure_time : ℚ), a⟩).2 with
      | false =>
        simp only [processConnection, mergeTrace]
        rw [h]
        simp [hlt, hch, applyMerges_cons, applyMerges_nil]
      | true =>
        simp only [processConnection, mergeTrace]
        rw [h]
        simp [hlt, hch, applyMerges_cons, scanFootpaths_profiles]

theorem timeMin_lt_left {tr e : Option ℚ}
    (h : timeLt (timeMin tr e) tr = true) : timeMin tr e = e := by
  cases tr with
  | none => cases e <;> rfl
  | some q =>
    cases e with
    | none => simp [timeMin, timeLt] at h
    | some b =>
      have h' : min q b < q := by simpa [timeMin, timeLt] using h
      have hb : b < q := by
        by_contra hq
        push_neg at hq
        rw [min_eq_left hq] at h'
        exact lt_irrefl _ h'
      simp [timeMin, min_eq_right hb.le]

theorem timeMin_not_lt_right {tr e : Option ℚ}
    (h : timeLt (timeMin tr e) tr = false) :
    timeMin tr e = tr := by
  cases tr with
  | none => cases e with
    | none => rfl
    | some b => simp [timeMin, timeLt] at h
  | some q =>
    cases e with
    | none => rfl
    | some b =>
      have h' : ¬ (min q b < q) := by simpa [timeMin, timeLt] using h
      have hqb : q ≤ b := by
        by_contra hq
        push_neg at hq
        exact h' (min_lt_iff.mpr (Or.inr hq))
      simp [timeMin, min_eq_left hqb]

theorem processConnection_tracker (P : ConnectionScanProfiler)
    (st : ScanState) (c : Connection) :
    (processConnection P st c).trip_min_arrival_time =
      if timeLt (spec_best_arrival P st c)
          (st.trip_min_arrival_time c.trip_id) then
        upd st.trip_min_arrival_time c.trip_id (spec_transfer_arrival P st c)
      else st.trip_min_arrival_time := by
  simp only [spec_best_arrival, spec_trip_arrival, spec_transfer_arrival]
  cases h : timeMin (st.trip_min_arrival_time c.trip_id)
      ((st.stop_profiles c.arrival_stop).get_earliest_arrival_time_at_target
        ((c.arrival_time + P.transfer_margin : ℤ) : ℚ)) with
  | none =>
    simp only [processConnection]
    rw [h]
    simp [timeLt]
  | some a =>
    cases hlt : timeLt (some a) (st.trip_min_arrival_time c.trip_id) with
    | false =>
      cases hch : ((st.stop_profiles
          c.departure_stop).update_pareto_optimal_tuples
            ⟨(c.departure_time : ℚ), a⟩).2 with
      | false =>
        simp only [processConnection]
        rw [h]
        simp [hlt, hch]
      | true =>
        simp only [processConnection]
        rw [h]
        simp [hlt, hch, scanFootpaths_tracker]
    | true =>
      cases hch : ((st.stop_profiles
          c.departure_stop).update_pareto_optimal_tuples
            ⟨(c.departure_time : ℚ), a⟩).2 with
      | false =>
        simp only [processConnection]
        rw [h]
        simp [hlt, hch]
      | true =>
        simp only [processConnection]
        rw [h]
        simp [hlt, hch, scanFootpaths_tracker]

theorem timeLt_some_right {x : Option ℚ} {q : ℚ}
    (h : timeLt x (some q) = true) : ∃ a, x = some a ∧ a < q := by
  cases x with
  | none => simp [timeLt] at h
  | some a => exact ⟨a, rfl, by simpa [timeLt] using h⟩

theorem timeMin_some_of_not_lt {tr : Option ℚ} {t : ℚ}
    (h : timeLt tr (some t) = false) : timeMin tr (some t) = some t := by
  cases tr with
  | none => rfl
  | some q =>
    have h' : ¬ (q < t) := by simpa [timeLt] using h
    simp [timeMin, min_eq_right (le_of_not_lt h')]

/-! ### The claims -/

/-- C1: for every connection `c` processed by the scan, the engine
computes the transfer option by querying the frontier at `c`'s arrival
location with the time `c.arrival_time + transfer_margin`, reads the trip
tracker's value for `c.trip_id` with no margin added, and takes
`best_arrival` as the minimum of the two (`spec_best_arrival`); when
`best_arrival` is finite, the tuple `(c.departure_time, best_arrival)` is
the first merge issued, into the frontier at `c`'s departure location (and
when it is unreachable nothing is merged); the state change of the step is
exactly the replay of its merge calls. -/
theorem claim_C1_best_arrival_merge (P : ConnectionScanProfiler)
    (st : ScanState) (c : Connection) :
    (mergeTrace P st c).head? =
      (spec_best_arrival P st c).map
        (fun a => (c.departure_stop,
          (⟨(c.departure_time : ℚ), a⟩ : ParetoTuple))) ∧
    (processConnection P st c).stop_profiles =
      applyMerges st.stop_profiles (mergeTrace P st c) := by
  refine ⟨?_, processConnection_profiles P st c⟩
  simp only [spec_best_arrival, spec_trip_arrival, spec_transfer_arrival]
  cases h : timeMin (st.trip_min_arrival_time c.trip_id)
      ((st.stop_profiles c.arrival_stop).get_earliest_arrival_time_at_target
        ((c.arrival_time + P.transfer_margin : ℤ) : ℚ)) with
  | none =>
    simp only [mergeTrace]
    rw [h]
    rfl
  | some a =>
    simp only [mergeTrace]
    rw [h]
    rfl

/-- C2: footpath propagation from the departure stop runs iff the merge of
`(dep, arr)` into its frontier reported a change; when it runs it merges,
for every walk-graph neighbor at distance `d`, exactly the tuple
`(dep - d / walk_speed, arr)`, and nothing beyond those one-hop merges
happens in the step (the replay of the trace is the whole effect). -/
theorem claim_C2_footpath_iff_changed (P : ConnectionScanProfiler)
    (st : ScanState) (c : Connection) (a : ℚ)
    (h : spec_best_arrival P st c = some a) :
    (mergeTrace P st c).tail =
      (if ((st.stop_profiles c.departure_stop).update_pareto_optimal_tuples
          ⟨(c.departure_time : ℚ), a⟩).2 then
        (P.walk_network.edges c.departure_stop).map
          (fun e => (e.1,
            (⟨(c.departure_time : ℚ) - e.2 / P.walk_speed, a⟩ : ParetoTuple)))
      else []) ∧
    (processConnection P st c).stop_profiles =
      applyMerges st.stop_profiles (mergeTrace P st c) := by
  refine ⟨?_, processConnection_profiles P st c⟩
  simp only [spec_best_arrival, spec_trip_arrival, spec_transfer_arrival] at h
  simp only [mergeTrace, footpathCandidates]
  rw [h]
  rfl

theorem claim_C2_witness :
    spec_best_arrival exFootP (initialState exFootP) exConnBT = some 15 ∧
    ((mergeTrace exFootP (initialState exFootP) exConnBT).tail =
      (if (((initialState exFootP).stop_profiles
          exConnBT.departure_stop).update_pareto_optimal_tuples
          ⟨(exConnBT.departure_time : ℚ), 15⟩).2 then
        (exFootP.walk_network.edges exConnBT.departure_stop).map
          (fun e => (e.1,
            (⟨(exConnBT.departure_time : ℚ) - e.2 / exFootP.walk_speed, 15⟩ :
              ParetoTuple)))
      else []) ∧
     (processConnection exFootP (initialState exFootP)
         exConnBT).stop_profiles =
       applyMerges (initialState exFootP).stop_profiles
         (mergeTrace exFootP (initialState exFootP) exConnBT)) :=
  ⟨by decide,
   claim_C2_footpath_iff_changed exFootP (initialState exFootP) exConnBT 15
     (by decide)⟩

/-- C3: the trip tracker entry for `c.trip_id` is the only one a step can
touch; it is (re)written iff the stored value is strictly greater than the
step's best arrival, in which case the written value is the transfer-based
arrival (which then coincides with the best arrival); a stored finite
value is never deleted and never increases. -/
theorem claim_C3_tracker_monotone (P : ConnectionScanProfiler)
    (st : ScanState) (c : Connection) :
    (∀ t, t ≠ c.trip_id →
      (processConnection P st c).trip_min_arrival_time t =
        st.trip_min_arrival_time t) ∧
    (if timeLt (spec_best_arrival P st c)
        (st.trip_min_arrival_time c.trip_id) then
      ((processConnection P st c).trip_min_arrival_time c.trip_id =
          spec_transfer_arrival P st c ∧
        spec_transfer_arrival P st c = spec_best_arrival P st c)
     else
      (processConnection P st c).trip_min_arrival_time c.trip_id =
        st.trip_min_arrival_time c.trip_id) ∧
    (∀ q, st.trip_min_arrival_time c.trip_id = some q →
      ∃ q', (processConnection P st c).trip_min_arrival_time c.trip_id =
          some q' ∧ q' ≤ q) := by
  rw [processConnection_tracker]
  refine ⟨?_, ?_, ?_⟩
  · intro t ht
    split
    · simp [upd, ht]
    · rfl
  · cases hcond : timeLt (spec_best_arrival P st c)
        (st.trip_min_arrival_time c.trip_id) with
    | false => simp [hcond]
    | true =>
      have heq : spec_transfer_arrival P st c = spec_best_arrival P st c := by
        have := @timeMin_lt_left (st.trip_min_arrival_time c.trip_id)
          (spec_transfer_arrival P st c)
          (by simpa [spec_best_arrival, spec_trip_arrival] using hcond)
        simpa [spec_best_arrival, spec_trip_arrival] using this.symm
      simp [hcond, upd, heq]
  · intro q hq
    cases hcond : timeLt (spec_best_arrival P st c)
        (st.trip_min_arrival_time c.trip_id) with
    | false => exact ⟨q, by simp [hcond, hq], le_refl q⟩
    | true =>
      have heq : spec_transfer_arrival P st c = spec_best_arrival P st c := by
        have := @timeMin_lt_left (st.trip_min_arrival_time c.trip_id)
          (spec_transfer_arrival P st c)
          (by simpa [spec_best_arrival, spec_trip_arrival] using hcond)
        simpa [spec_best_arrival, spec_trip_arrival] using this.symm
      have hcond' := hcond
      rw [hq] at hcond'
      obtain ⟨a, ha, haq⟩ := timeLt_some_right hcond'
      refine ⟨a, ?_, haq.le⟩
      simp [hcond, upd, heq, ha]

theorem claim_C3_witness :
    ((2 : ℕ) ≠ exConnBT.trip_id ∧
      (processConnection exMarginP (initialState exMarginP)
          exConnBT).trip_min_arrival_time 2 =
        (initialState exMarginP).trip_min_arrival_time 2) ∧
    ((processConnection exMarginP (initialState exMarginP)
        exConnBT).trip_min_arrival_time exConnBT.trip_id = some 17 ∧
      ∃ q', (processConnection exMarginP
          (processConnection exMarginP (initialState exMarginP) exConnBT)
          exConnBT).trip_min_arrival_time exConnBT.trip_id =
          some q' ∧ q' ≤ 17) :=
  ⟨⟨by decide,
    (claim_C3_tracker_monotone exMarginP (initialState exMarginP)
      exConnBT).1 2 (by decide)⟩,
   ⟨by decide,
    (claim_C3_tracker_monotone exMarginP
      (processConnection exMarginP (initialState exMarginP) exConnBT)
      exConnBT).2.2 17 (by decide)⟩⟩

/-- C4: a connection whose best arrival is the unreachable sentinel leaves
the whole state (every frontier and every tracker entry) unchanged and
issues no merge and no footpath propagation. -/
theorem claim_C4_unreachable_skip (P : ConnectionScanProfiler)
    (st : ScanState) (c : Connection)
    (h : spec_best_arrival P st c = none) :
    processConnection P st c = st ∧ mergeTrace P st c = [] := by
  simp only [spec_best_arrival, spec_trip_arrival, spec_transfer_arrival] at h
  refine ⟨?_, ?_⟩
  · simp only [processConnection]
    rw [h]
  · simp only [mergeTrace]
    rw [h]

theorem claim_C4_witness :
    spec_best_arrival exGoodP (initialState exGoodP) exConnAB = none ∧
    (processConnection exGoodP (initialState exGoodP) exConnAB =
        initialState exGoodP ∧
      mergeTrace exGoodP (initialState exGoodP) exConnAB = []) :=
  ⟨by decide,
   claim_C4_unreachable_skip exGoodP (initialState exGoodP) exConnAB
     (by decide)⟩

/-- C9: for a connection alighting at the target (sentinel frontier),
processed while the trip tracker holds nothing better than the transfer
option, the transfer margin is charged even though the journey ends there:
the sentinel answers `c.arrival_time + transfer_margin` unchanged, so the
tuple merged at the departure stop is
`(c.departure_time, c.arrival_time + transfer_margin)`. -/
theorem claim_C9_margin_charged_at_target (P : ConnectionScanProfiler)
    (st : ScanState) (c : Connection)
    (hid : st.stop_profiles c.arrival_stop = Profile.identity)
    (htr : timeLt (st.trip_min_arrival_time c.trip_id)
      (some ((c.arrival_time + P.transfer_margin : ℤ) : ℚ)) = false) :
    spec_best_arrival P st c =
      some ((c.arrival_time + P.transfer_margin : ℤ) : ℚ) ∧
    (mergeTrace P st c).head? = some (c.departure_stop,
      ⟨(c.departure_time : ℚ),
        ((c.arrival_time + P.transfer_margin : ℤ) : ℚ)⟩) := by
  have hq : (st.stop_profiles
      c.arrival_stop).get_earliest_arrival_time_at_target
        ((c.arrival_time + P.transfer_margin : ℤ) : ℚ) =
      some ((c.arrival_time + P.transfer_margin : ℤ) : ℚ) := by
    rw [hid]
    rfl
  have hbest : spec_best_arrival P st c =
      some ((c.arrival_time + P.transfer_margin : ℤ) : ℚ) := by
    simp only [spec_best_arrival, spec_trip_arrival, spec_transfer_arrival]
    rw [hq]
    exact timeMin_some_of_not_lt htr
  refine ⟨hbest, ?_⟩
  simp only [mergeTrace]
  rw [hq, timeMin_some_of_not_lt htr]
  rfl

theorem claim_C9_witness :
    (initialState exMarginP).stop_profiles exConnBT.arrival_stop =
        Profile.identity ∧
    timeLt ((initialState exMarginP).trip_min_arrival_time exConnBT.trip_id)
      (some ((exConnBT.arrival_time + exMarginP.transfer_margin : ℤ) : ℚ)) =
        false ∧
    (spec_best_arrival exMarginP (initialState exMarginP) exConnBT =
      some ((exConnBT.arrival_time + exMarginP.transfer_margin : ℤ) : ℚ) ∧
    (mergeTrace exMarginP (initialState exMarginP) exConnBT).head? =
      some (exConnBT.departure_stop,
        ⟨(exConnBT.departure_time : ℚ),
          ((exConnBT.arrival_time + exMarginP.transfer_margin : ℤ) : ℚ)⟩)) :=
  ⟨by decide, by decide,
   claim_C9_margin_charged_at_target exMarginP (initialState exMarginP)
     exConnBT (by decide) (by decide)⟩

theorem scanLoop_abort (P : ConnectionScanProfiler) :
    ∀ (i : ℕ) (l : List Connection) (st : ScanState) (latest : Option ℤ)
      (h1 : i + 1 < l.length),
      (l.get ⟨i, Nat.lt_of_succ_lt h1⟩).departure_time <
        (l.get ⟨i + 1, h1⟩).departure_time →
      scanLoop P st latest l = none ∧
        ∃ k ≤ i + 1, processedConnections latest l = l.take k := by
  intro i
  induction i with
  | zero =>
    intro l st latest h1 hv
    cases l with
    | nil => exact absurd h1 (by simp)
    | cons c rest =>
      cases rest with
      | nil => exact absurd h1 (by simp)
      | cons c2 rest2 =>
        have hv' : c.departure_time < c2.departure_time := by simpa using hv
        cases latest with
        | none =>
          refine ⟨?_, 1, le_refl 1, ?_⟩
          · simp only [scanLoop]
            rw [if_neg (not_le.mpr hv')]
          · simp only [processedConnections]
            rw [if_neg (not_le.mpr hv')]
            rfl
        | some m =>
          by_cases hc : c.departure_time ≤ m
          · refine ⟨?_, 1, le_refl 1, ?_⟩
            · simp only [scanLoop]
              rw [if_pos hc]
              rw [if_neg (not_le.mpr hv')]
            · simp only [processedConnections]
              rw [if_pos hc]
              rw [if_neg (not_le.mpr hv')]
              rfl
          · refine ⟨?_, 0, by omega, ?_⟩
            · simp only [scanLoop]
              rw [if_neg hc]
            · simp only [processedConnections]
              rw [if_neg hc]
              rfl
  | succ i ih =>
    intro l st latest h1 hv
    cases l with
    | nil => exact absurd h1 (by simp)
    | cons c rest =>
      have h1' : i + 1 < rest.length := by
        simpa [Nat.succ_lt_succ_iff] using h1
      have hv' : (rest.get ⟨i, Nat.lt_of_succ_lt h1'⟩).departure_time <
          (rest.get ⟨i + 1, h1'⟩).departure_time := by
        simpa using hv
      cases latest with
      | none =>
        obtain ⟨hnone, k, hk, hp⟩ :=
          ih rest (processConnection P st c) (some c.departure_time) h1' hv'
        refine ⟨?_, k + 1, by omega, ?_⟩
        · simp only [scanLoop]
          exact hnone
        · simp only [processedConnections]
          rw [hp]
          rfl
      | some m =>
        by_cases hc : c.departure_time ≤ m
        · obtain ⟨hnone, k, hk, hp⟩ :=
            ih rest (processConnection P st c) (some c.departure_time) h1' hv'
          refine ⟨?_, k + 1, by omega, ?_⟩
          · simp only [scanLoop]
            rw [if_pos hc]
            exact hnone
          · simp only [processedConnections]
            rw [if_pos hc, hp]
            rfl
        · refine ⟨?_, 0, by omega, ?_⟩
          · simp only [scanLoop]
            rw [if_neg hc]
          · simp only [processedConnections]
            rw [if_neg hc]
            rfl

theorem scanLoop_some_of_sorted (P : ConnectionScanProfiler) :
    ∀ (l : List Connection) (st : ScanState) (latest : Option ℤ),
      List.Chain' (fun a b => b.departure_time ≤ a.departure_time) l →
      (∀ c0, l.head? = some c0 → ∀ m, latest = some m →
        c0.departure_time ≤ m) →
      (scanLoop P st latest l).isSome = true := by
  intro l
  induction l with
  | nil => intro st latest _ _; rfl
  | cons c rest ih =>
    intro st latest hchain hhead
    rw [List.chain'_cons'] at hchain
    have hrec := ih (processConnection P st c) (some c.departure_time)
      hchain.2
      (by
        intro c0 hc0 m hm
        injection hm with hm
        subst hm
        exact hchain.1 c0 hc0)
    cases latest with
    | none => simpa [scanLoop] using hrec
    | some m =>
      have hc : c.departure_time ≤ m := hhead c rfl m rfl
      simp only [scanLoop]
      rw [if_pos hc]
      exact hrec

/-- C5: if some connection departs strictly later than its immediate
predecessor in the input sequence, the sweep aborts: `_run` produces no
result, and the connections actually processed form a prefix that stops
at or before the violating position. -/
theorem claim_C5_abort_on_violation (P : ConnectionScanProfiler) (i : ℕ)
    (h1 : i + 1 < P.transit_events.length)
    (hv : (P.transit_events.get ⟨i, Nat.lt_of_succ_lt h1⟩).departure_time <
      (P.transit_events.get ⟨i + 1, h1⟩).departure_time) :
    ConnectionScanProfiler.run P = none ∧
      ∃ k ≤ i + 1, processedConnections none P.transit_events =
        P.transit_events.take k :=
  scanLoop_abort P i P.transit_events (initialState P) none h1 hv

theorem claim_C5_witness :
    (exBadP.transit_events.get
        ⟨0, Nat.lt_of_succ_lt (by decide)⟩).departure_time <
      (exBadP.transit_events.get ⟨0 + 1, by decide⟩).departure_time ∧
    (ConnectionScanProfiler.run exBadP = none ∧
      ∃ k ≤ 0 + 1, processedConnections none exBadP.transit_events =
        exBadP.transit_events.take k) :=
  ⟨by decide, claim_C5_abort_on_violation exBadP 0 (by decide) (by decide)⟩

/-- C10: the input-order check is non-strict and unconstrained on the
first element: the sweep completes iff every connection departs no later
than its immediate predecessor (equal departure times pass; the baseline
starts at the infinity sentinel so the first connection always passes;
only a strict increase aborts). -/
theorem claim_C10_order_check_nonstrict (P : ConnectionScanProfiler) :
    (ConnectionScanProfiler.run P).isSome = true ↔
      List.Chain' (fun a b => b.departure_time ≤ a.departure_time)
        P.transit_events := by
  constructor
  · intro hs
    by_contra hchain
    rw [List.chain'_iff_get] at hchain
    push_neg at hchain
    obtain ⟨i, hi, hv⟩ := hchain
    have h1 : i + 1 < P.transit_events.length := by omega
    have hv' : (P.transit_events.get
        ⟨i, Nat.lt_of_succ_lt h1⟩).departure_time <
        (P.transit_events.get ⟨i + 1, h1⟩).departure_time := hv
    have hrun : ConnectionScanProfiler.run P = none :=
      (scanLoop_abort P i P.transit_events (initialState P) none h1 hv').1
    rw [hrun] at hs
    simp at hs
  · intro hchain
    exact scanLoop_some_of_sorted P P.transit_events (initialState P) none
      hchain (by intro c0 _ m hm; cases hm)

theorem claim_C10_witness :
    List.Chain' (fun a b => b.departure_time ≤ a.departure_time)
      exEqP.transit_events ∧
    (ConnectionScanProfiler.run exEqP).isSome = true :=
  ⟨by norm_num [exEqP, exConnBT, List.chain'_cons, List.chain'_singleton],
   (claim_C10_order_check_nonstrict exEqP).mpr
     (by norm_num [exEqP, exConnBT, List.chain'_cons,
       List.chain'_singleton])⟩

/-- C6: reading `stop_profiles` of an instance whose sweep has not run to
completion fails (no result); once the sweep completes, the accessor
returns exactly the final per-location profile map of the run. -/
theorem claim_C6_output_gated (P : ConnectionScanProfiler)
    (inst : ProfilerInstance) (hnot : inst.has_run_flag = false) :
    inst.stop_profiles = none ∧
    (P.newInstance).runOnce.bind ProfilerInstance.stop_profiles =
      (ConnectionScanProfiler.run P).map ScanState.stop_profiles := by
  constructor
  · simp [ProfilerInstance.stop_profiles, hnot]
  · simp only [ProfilerInstance.runOnce, ConnectionScanProfiler.newInstance,
      ConnectionScanProfiler.run]
    cases h : scanLoop P (initialState P) none P.transit_events with
    | none => simp [h]
    | some st => simp [h, ProfilerInstance.stop_profiles]

theorem claim_C6_witness :
    (exGoodP.newInstance).has_run_flag = false ∧
    ((exGoodP.newInstance).stop_profiles = none ∧
      (exGoodP.newInstance).runOnce.bind ProfilerInstance.stop_profiles =
        (ConnectionScanProfiler.run exGoodP).map ScanState.stop_profiles) :=
  ⟨rfl, claim_C6_output_gated exGoodP exGoodP.newInstance rfl⟩

/-- C7: the sweep's result is independent of `start_time` and `end_time`:
two runs agreeing on the connection sequence, target, transfer margin,
walk network and walk speed, and differing only in the window bounds,
produce identical final states (hence identical frontiers everywhere). -/
theorem claim_C7_window_independent (ev : List Connection) (tgt : ℕ)
    (s1 e1 s2 e2 tm : ℤ) (wn : WalkNetwork) (ws : ℚ) :
    ConnectionScanProfiler.run ⟨ev, tgt, s1, e1, tm, wn, ws⟩ =
      ConnectionScanProfiler.run ⟨ev, tgt, s2, e2, tm, wn, ws⟩ := by
  have hstep : ∀ (l : List Connection) (st : ScanState) (latest : Option ℤ),
      scanLoop ⟨ev, tgt, s1, e1, tm, wn, ws⟩ st latest l =
        scanLoop ⟨ev, tgt, s2, e2, tm, wn, ws⟩ st latest l := by
    intro l
    induction l with
    | nil => intro st latest; rfl
    | cons c rest ih =>
      intro st latest
      cases latest with
      | none =>
        simp only [scanLoop]
        rw [show processConnection ⟨ev, tgt, s1, e1, tm, wn, ws⟩ st c =
          processConnection ⟨ev, tgt, s2, e2, tm, wn, ws⟩ st c from rfl]
        exact ih _ _
      | some m =>
        simp only [scanLoop]
        by_cases hc : c.departure_time ≤ m
        · rw [if_pos hc, if_pos hc]
          rw [show processConnection ⟨ev, tgt, s1, e1, tm, wn, ws⟩ st c =
            processConnection ⟨ev, tgt, s2, e2, tm, wn, ws⟩ st c from rfl]
          exact ih _ _
        · rw [if_neg hc, if_neg hc]
  exact hstep ev (initialState ⟨ev, tgt, s1, e1, tm, wn, ws⟩) none

theorem isIntegerTime_intCast (n : ℤ) : IsIntegerTime ((n : ℤ) : ℚ) :=
  Rat.den_intCast n

theorem isIntegerTime_iff {q : ℚ} :
    IsIntegerTime q ↔ ∃ n : ℤ, q = (n : ℚ) := by
  constructor
  · intro h
    exact ⟨q.num, ((Rat.den_eq_one_iff q).mp h).symm⟩
  · rintro ⟨n, rfl⟩
    exact Rat.den_intCast n

theorem isIntegerTime_sub {a b : ℚ} (ha : IsIntegerTime a)
    (hb : IsIntegerTime b) : IsIntegerTime (a - b) := by
  obtain ⟨m, rfl⟩ := isIntegerTime_iff.mp ha
  obtain ⟨n, rfl⟩ := isIntegerTime_iff.mp hb
  exact isIntegerTime_iff.mpr ⟨m - n, by push_cast; ring⟩

theorem isIntegerTime_min {a b : ℚ} (ha : IsIntegerTime a)
    (hb : IsIntegerTime b) : IsIntegerTime (min a b) := by
  rcases min_choice a b with h | h <;> rw [h] <;> assumption

theorem query_integral {ps : ℕ → Profile} (hps : IntegralProfiles ps)
    (s : ℕ) {t : ℚ} (ht : IsIntegerTime t) {q : ℚ}
    (hq : (ps s).get_earliest_arrival_time_at_target t = some q) :
    IsIntegerTime q := by
  cases hp : ps s with
  | identity =>
    rw [hp] at hq
    simp only [Profile.get_earliest_arrival_time_at_target] at hq
    injection hq with hq
    rw [← hq]
    exact ht
  | node np =>
    rw [hp] at hq
    simp only [Profile.get_earliest_arrival_time_at_target,
      NodeProfile.get_earliest_arrival_time_at_target] at hq
    have hmem := List.min?_mem (fun a b => min_choice a b) hq
    obtain ⟨tup, htup, rfl⟩ := List.mem_map.mp hmem
    exact (hps s np hp tup (List.mem_of_mem_filter htup)).2

theorem timeMin_integral {x y : Option ℚ}
    (hx : ∀ q, x = some q → IsIntegerTime q)
    (hy : ∀ q, y = some q → IsIntegerTime q) :
    ∀ q, timeMin x y = some q → IsIntegerTime q := by
  intro q h
  cases x with
  | none => exact hy q (by simpa [timeMin] using h)
  | some a =>
    cases y with
    | none =>
      have : a = q := by simpa [timeMin] using h
      rw [← this]
      exact hx a rfl
    | some b =>
      have hmin : min a b = q := by simpa [timeMin] using h
      rw [← hmin]
      exact isIntegerTime_min (hx a rfl) (hy b rfl)

theorem update_tuples_integral {np : NodeProfile} {p : ParetoTuple}
    (hnp : ∀ tup ∈ np.tuples, IntegralTuple tup) (hp : IntegralTuple p) :
    ∀ tup ∈ (np.update_pareto_optimal_tuples p).1.tuples,
      IntegralTuple tup := by
  intro tup htup
  unfold NodeProfile.update_pareto_optimal_tuples at htup
  split at htup
  · exact hnp tup htup
  · rcases List.mem_cons.mp htup with rfl | hmem
    · exact hp
    · exact hnp tup (List.mem_of_mem_filter hmem)

theorem profile_update_integral {pr : Profile} {p : ParetoTuple}
    (hpr : ∀ np, pr = Profile.node np → ∀ tup ∈ np.tuples, IntegralTuple tup)
    (hp : IntegralTuple p) :
    ∀ np, (pr.update_pareto_optimal_tuples p).1 = Profile.node np →
      ∀ tup ∈ np.tuples, IntegralTuple tup := by
  intro np hnp tup htup
  cases pr with
  | identity =>
    exact absurd hnp (by simp [Profile.update_pareto_optimal_tuples])
  | node np0 =>
    simp only [Profile.update_pareto_optimal_tuples] at hnp
    injection hnp with hnp
    rw [← hnp] at htup
    exact update_tuples_integral (hpr np0 rfl) hp tup htup

theorem applyMerges_integral :
    ∀ (ms : List (ℕ × ParetoTuple)) (ps : ℕ → Profile),
      IntegralProfiles ps → (∀ m ∈ ms, IntegralTuple m.2) →
      IntegralProfiles (applyMerges ps ms) := by
  intro ms
  induction ms with
  | nil => intro ps hps _; exact hps
  | cons m rest ih =>
    intro ps hps hms
    rw [applyMerges_cons]
    refine ih _ ?_ (fun x hx => hms x (List.mem_cons_of_mem m hx))
    intro s np hnp tup htup
    by_cases hs : s = m.1
    · have hupd : upd ps m.1 ((ps m.1).update_pareto_optimal_tuples m.2).1 s =
          ((ps m.1).update_pareto_optimal_tuples m.2).1 := by
        simp [upd, hs]
      rw [hupd] at hnp
      exact profile_update_integral (fun np0 h0 => hps m.1 np0 h0)
        (hms m (List.mem_cons_self m rest)) np hnp tup htup
    · have hupd : upd ps m.1 ((ps m.1).update_pareto_optimal_tuples m.2).1 s =
          ps s := by
        simp [upd, hs]
      rw [hupd] at hnp
      exact hps s np hnp tup htup

theorem mergeTrace_integral (P : ConnectionScanProfiler) (st : ScanState)
    (c : Connection) (hst : IntegralState st)
    (hdiv : ∀ s, ∀ e ∈ P.walk_network.edges s,
      IsIntegerTime (e.2 / P.walk_speed)) :
    ∀ m ∈ mergeTrace P st c, IntegralTuple m.2 := by
  intro m hm
  cases h : timeMin (st.trip_min_arrival_time c.trip_id)
      ((st.stop_profiles c.arrival_stop).get_earliest_arrival_time_at_target
        ((c.arrival_time + P.transfer_margin : ℤ) : ℚ)) with
  | none =>
    simp only [mergeTrace] at hm
    rw [h] at hm
    simp at hm
  | some a =>
    have ha : IsIntegerTime a :=
      timeMin_integral (hst.1 c.trip_id)
        (fun q hq => query_integral hst.2 c.arrival_stop
          (isIntegerTime_intCast (c.arrival_time + P.transfer_margin)) hq)
        a h
    simp only [mergeTrace] at hm
    rw [h] at hm
    rcases List.mem_cons.mp hm with rfl | hmem
    · exact ⟨isIntegerTime_intCast c.departure_time, ha⟩
    · split at hmem
      · simp only [footpathCandidates, List.mem_map] at hmem
        obtain ⟨e, he, rfl⟩ := hmem
        exact ⟨isIntegerTime_sub (isIntegerTime_intCast c.departure_time)
          (hdiv c.departure_stop e he), ha⟩
      · simp at hmem

theorem processConnection_integral (P : ConnectionScanProfiler)
    (st : ScanState) (c : Connection) (hst : IntegralState st)
    (hdiv : ∀ s, ∀ e ∈ P.walk_network.edges s,
      IsIntegerTime (e.2 / P.walk_speed)) :
    IntegralState (processConnection P st c) := by
  constructor
  · intro t q h
    rw [processConnection_tracker] at h
    by_cases hcond : timeLt (spec_best_arrival P st c)
        (st.trip_min_arrival_time c.trip_id) = true
    · rw [if_pos hcond] at h
      by_cases ht : t = c.trip_id
      · subst ht
        simp only [upd, if_pos rfl] at h
        exact query_integral hst.2 c.arrival_stop
          (isIntegerTime_intCast (c.arrival_time + P.transfer_margin)) h
      · simp only [upd, if_neg ht] at h
        exact hst.1 t q h
    · rw [if_neg hcond] at h
      exact hst.1 t q h
  · rw [processConnection_profiles]
    exact applyMerges_integral _ _ hst.2
      (fun m hm => mergeTrace_integral P st c hst hdiv m hm)

theorem initialState_integral (P : ConnectionScanProfiler) :
    IntegralState (initialState P) := by
  constructor
  · intro t q h
    exact Option.noConfusion h
  · intro s np h tup htup
    simp only [initialState] at h
    split at h
    · exact absurd h (by simp)
    · injection h with h2
      rw [← h2] at htup
      simp at htup

theorem scanLoopTrace_integral (P : ConnectionScanProfiler)
    (hdiv : ∀ s, ∀ e ∈ P.walk_network.edges s,
      IsIntegerTime (e.2 / P.walk_speed)) :
    ∀ (l : List Connection) (st : ScanState) (latest : Option ℤ),
      IntegralState st →
      ∀ m ∈ scanLoopTrace P st latest l, IntegralTuple m.2 := by
  intro l
  induction l with
  | nil =>
    intro st latest _ m hm
    simp [scanLoopTrace] at hm
  | cons c rest ih =>
    intro st latest hst m hm
    cases latest with
    | none =>
      simp only [scanLoopTrace] at hm
      rcases List.mem_append.mp hm with h1 | h2
      · exact mergeTrace_integral P st c hst hdiv m h1
      · exact ih (processConnection P st c) (some c.departure_time)
          (processConnection_integral P st c hst hdiv) m h2
    | some mm =>
      simp only [scanLoopTrace] at hm
      by_cases hc : c.departure_time ≤ mm
      · rw [if_pos hc] at hm
        rcases List.mem_append.mp hm with h1 | h2
        · exact mergeTrace_integral P st c hst hdiv m h1
        · exact ih (processConnection P st c) (some c.departure_time)
            (processConnection_integral P st c hst hdiv) m h2
      · rw [if_neg hc] at hm
        simp at hm

/-- C8 counterexample: `exFootP` has all-integer inputs (connection times
and the margin are integers by type, its only walk distance is the
integer 1) and positive walk speed 2, yet the sweep merges the footpath
tuple `(19/2, 15)` — a non-integer departure time, the exact unrounded
value `10 - 1/2`. -/
theorem claim_C8_counterexample :
    (0 : ℚ) < exFootP.walk_speed ∧
    exFootP.walk_network.edges exConnBT.departure_stop = [(2, 1)] ∧
    IsIntegerTime ((1 : ℚ)) ∧
    runMergeTrace exFootP = [(1, ⟨10, 15⟩), (2, ⟨19 / 2, 15⟩)] ∧
    ¬ IsIntegerTime ((19 : ℚ) / 2) := by
  refine ⟨by norm_num [exFootP], rfl, ?_, ?_, ?_⟩
  · show ((1 : ℚ)).den = 1
    decide
  · norm_num [runMergeTrace, scanLoopTrace, mergeTrace, exFootP, exConnBT,
      initialState, processConnection,
      NodeProfile.get_earliest_arrival_time_at_target,
      Profile.get_earliest_arrival_time_at_target,
      NodeProfile.update_pareto_optimal_tuples,
      Profile.update_pareto_optimal_tuples, timeMin, timeLt,
      footpathCandidates, upd, dominates]
  · show ¬ (((19 : ℚ) / 2).den = 1)
    norm_num

/-- C8 (amended): when, in addition to all connection times and the
transfer margin being integers, `walk_speed` exactly divides every
walk-edge distance (each `d / walk_speed` is an integer), every tuple
merged into any frontier during the sweep has exact integer departure and
arrival times; without that divisibility the footpath departure is the
exact unrounded rational `dep - d / walk_speed`. -/
theorem claim_C8_amended (P : ConnectionScanProfiler)
    (hdiv : ∀ s, ∀ e ∈ P.walk_network.edges s,
      IsIntegerTime (e.2 / P.walk_speed)) :
    ∀ m ∈ runMergeTrace P, IsIntegerTime m.2.departure_time ∧
      IsIntegerTime m.2.arrival_time_target :=
  fun m hm =>
    scanLoopTrace_integral P hdiv P.transit_events (initialState P) none
      (initialState_integral P) m hm

theorem claim_C8_amended_witness :
    (∀ s, ∀ e ∈ exFootIntP.walk_network.edges s,
      IsIntegerTime (e.2 / exFootIntP.walk_speed)) ∧
    (∀ m ∈ runMergeTrace exFootIntP, IsIntegerTime m.2.departure_time ∧
      IsIntegerTime m.2.arrival_time_target) := by
  have hdiv : ∀ s, ∀ e ∈ exFootIntP.walk_network.edges s,
      IsIntegerTime (e.2 / exFootIntP.walk_speed) := by
    intro s e he
    have he2 : e = ((2 : ℕ), (4 : ℚ)) := by
      simpa [exFootIntP] using he
    rw [he2]
    norm_num [IsIntegerTime, exFootIntP]
  exact ⟨hdiv, claim_C8_amended exFootIntP hdiv⟩
